import Mathlib

/-!
Shallow embedding of the MercadoLibre scraping / WhatsApp notification
script (src/mercadolibre-scraping-whatsapp-msg.py) and proofs about it.

The embedding models:
* `fetch_offers` — the paginated search-client loop with first-seen
  deduplication by id and early termination (empty page, short page,
  or transport/parse failure);
* the SQLite-backed offer store (`get_existing_offer_ids`,
  `add_offer_to_db` with INSERT OR IGNORE semantics,
  `remove_offer_from_db`);
* `send_notification` — the Twilio notifier, including the greedy
  fallback that packs offer blocks into parts of at most 1600
  characters when the whole message is rejected;
* `job` — one reconciliation run: merge all terms, diff against the
  store, mutate the store, notify.

External effects are made explicit: a term's page responses are a
function from offset to `Except Unit (List Offer)` (a parse/transport
failure is `Except.error ()`); the store is a list of rows; the
notification transport is modelled by the list of message bodies that
would be handed to it.
-/

namespace MLScrape

/-- One marketplace listing as returned by the search endpoint
(the fields the script reads out of each JSON result). -/
structure Offer where
  id : String
  title : String
  price : Int
  permalink : String
deriving DecidableEq, Repr

/-- One row of the `offers` table: the persisted fields plus the
store-assigned creation timestamp (`DEFAULT CURRENT_TIMESTAMP`). -/
structure StoredOffer where
  id : String
  title : String
  price : Int
  permalink : String
  timestamp : Nat
deriving DecidableEq, Repr

/-- Response of one page request: either the `results` array of the
parsed JSON body, or a transport/parse failure. -/
abbrev Page := Except Unit (List Offer)

/-- Offsets requested by `range(0, 1001, 50)`: 0, 50, ..., 1000. -/
def offsets : List Nat := (List.range 21).map (fun k => 50 * k)

/-- One step of the in-call deduplication
(`if item_id not in all_offers: all_offers[item_id] = item`):
the Python dict is modelled as an insertion-ordered association list. -/
def dedupStep (m : List (String × Offer)) (item : Offer) : List (String × Offer) :=
  if m.any (fun p => p.1 == item.id) then m else m ++ [(item.id, item)]

/-- Accumulator of the pagination loop of `fetch_offers`: folds each
processed page's results into the dedup map, stopping on a failed
page, an empty page, or a page with fewer than 50 results. -/
def fetchAcc (pages : Nat → Page) : List Nat → List (String × Offer) → List (String × Offer)
  | [], acc => acc
  | off :: rest, acc =>
    match pages off with
    | Except.error _ => acc
    | Except.ok results =>
      if results = [] then acc
      else
        let acc2 := results.foldl dedupStep acc
        if results.length < 50 then acc2
        else fetchAcc pages rest acc2

/-- Offsets the pagination loop actually requests (each iteration issues
exactly one GET before deciding whether to continue). -/
def requestedFrom (pages : Nat → Page) : List Nat → List Nat
  | [] => []
  | off :: rest =>
    match pages off with
    | Except.error _ => [off]
    | Except.ok results =>
      if results = [] then [off]
      else if results.length < 50 then [off]
      else off :: requestedFrom pages rest

/-- Concatenation, in processing order, of the `results` arrays of the
pages the loop successfully processed (the items the dedup map sees). -/
def processedFrom (pages : Nat → Page) : List Nat → List Offer
  | [] => []
  | off :: rest =>
    match pages off with
    | Except.error _ => []
    | Except.ok results =>
      if results = [] then []
      else if results.length < 50 then results
      else results ++ processedFrom pages rest

/-- The search client for one term: `list(all_offers.values())` after the
pagination loop, given that term's page responses. -/
def fetch_offers (pages : Nat → Page) : List Offer :=
  (fetchAcc pages offsets []).map (fun p => p.2)

/-- Offsets requested during one `fetch_offers` call. -/
def requestedOffsets (pages : Nat → Page) : List Nat :=
  requestedFrom pages offsets

/-- Items seen (pre-deduplication) during one `fetch_offers` call. -/
def processedItems (pages : Nat → Page) : List Offer :=
  processedFrom pages offsets

/-- The `SELECT id FROM offers` query: ids of the rows currently stored. -/
def get_existing_offer_ids (db : List StoredOffer) : List String :=
  db.map (fun r => r.id)

/-- The `INSERT OR IGNORE INTO offers` statement: a no-op when a row with
the same id exists, otherwise appends a fresh row stamped `now`. -/
def add_offer_to_db (db : List StoredOffer) (item : Offer) (now : Nat) : List StoredOffer :=
  if db.any (fun r => r.id == item.id) then db
  else db ++ [⟨item.id, item.title, item.price, item.permalink, now⟩]

/-- The `DELETE FROM offers WHERE id = ?` statement. -/
def remove_offer_from_db (db : List StoredOffer) (offer_id : String) : List StoredOffer :=
  db.filter (fun r => r.id != offer_id)

/-- Header line of the notification message. -/
def NOTIF_HEADER : String := "New \x27Usado\x27 offers found:\n"

/-- Formatted block for one offer
(`f"- {title} for ${price}\n{link}\n\n"`). -/
def offerBlock (item : Offer) : String :=
  "- " ++ item.title ++ " for $" ++ toString item.price ++ "\n" ++ item.permalink ++ "\n\n"

/-- The complete candidate message: header followed by all offer blocks. -/
def buildMessage (new_offers : List Offer) : String :=
  new_offers.foldl (fun acc item => acc ++ offerBlock item) NOTIF_HEADER

/-- Twilio's hard per-message length limit recognised by the script. -/
def MSG_LIMIT : Nat := 1600

/-- Greedy fallback packing of `send_notification`: accumulate blocks
into `cur`; when the next block would push past the limit, seal `cur`
and restart from that block; finally append `cur` if non-empty. -/
def pack (limit : Nat) : String → List String → List String
  | cur, [] => if cur = "" then [] else [cur]
  | cur, b :: bs =>
    if limit < cur.length + b.length then cur :: pack limit b bs
    else pack limit (cur ++ b) bs

/-- The notifier: returns the list of message bodies handed to the
transport.  The whole message is sent as one body when it fits; a body
longer than 1600 characters is rejected by the transport with an error
mentioning "1600", upon which the script re-packs greedily. -/
def send_notification (new_offers : List Offer) : List String :=
  if new_offers = [] then []
  else
    let message_text := buildMessage new_offers
    if message_text.length ≤ MSG_LIMIT then [message_text]
    else pack MSG_LIMIT NOTIF_HEADER (new_offers.map offerBlock)

/-- One step of the cross-term merge
(`all_current_offers[item.get("id")] = item`): overwrites the value at
an existing key in place, otherwise appends. -/
def dictInsert (m : List (String × Offer)) (item : Offer) : List (String × Offer) :=
  if m.any (fun p => p.1 == item.id) then
    m.map (fun p => if p.1 == item.id then (item.id, item) else p)
  else m ++ [(item.id, item)]

/-- The merged dict built by the term loop of `job`, given the per-term
page responses `api` and the configured term list. -/
def mergedAssoc (api : String → Nat → Page) (terms : List String) : List (String × Offer) :=
  terms.foldl (fun m q => (fetch_offers (api q)).foldl dictInsert m) []

/-- The merged current offer list (`list(all_current_offers.values())`). -/
def mergedOffers (api : String → Nat → Page) (terms : List String) : List Offer :=
  (mergedAssoc api terms).map (fun p => p.2)

/-- Observable outcome of one run of `job`: final store contents, the
message bodies handed to the transport, and the computed diff. -/
structure RunResult where
  db : List StoredOffer
  sent : List String
  newOffers : List Offer
  disappearedIds : List String
deriving DecidableEq, Repr

/-- One reconciliation run: merge all terms, abort if the merged list is
empty, otherwise diff against the store, insert new offers, delete
disappeared ones, and notify when there are new offers. -/
def job (api : String → Nat → Page) (terms : List String) (db : List StoredOffer)
    (now : Nat) : RunResult :=
  let current_offers := mergedOffers api terms
  if current_offers = [] then ⟨db, [], [], []⟩
  else
    let existing_offer_ids : List String := get_existing_offer_ids db
    let current_offer_ids : List String := current_offers.map (fun item => item.id)
    let new_offers := current_offers.filter (fun item => decide (item.id ∉ existing_offer_ids))
    let db1 := new_offers.foldl (fun d item => add_offer_to_db d item now) db
    let disappeared_offer_ids :=
      existing_offer_ids.filter (fun i => decide (i ∉ current_offer_ids))
    let db2 := disappeared_offer_ids.foldl remove_offer_from_db db1
    ⟨db2, send_notification new_offers, new_offers, disappeared_offer_ids⟩

/-- First-seen deduplication by id, specified recursively: keep the head,
drop every later item with the same id. -/
def dfr : List Offer → List (String × Offer)
  | [] => []
  | x :: xs => (x.id, x) :: dfr (xs.filter (fun y => y.id != x.id))
termination_by l => l.length
decreasing_by
  simp only [List.length_cons]
  exact Nat.lt_succ_of_le (List.length_filter_le _ _)

/-- Concatenation of a list of strings. -/
def strJoin (l : List String) : String := l.foldr (fun a b => a ++ b) ""

/-- Total length of a list of strings. -/
def sumLen (l : List String) : Nat := (l.map String.length).sum

/-- Results of the page at `off`, or `[]` when the request failed. -/
def pagesOk (pages : Nat → Page) (off : Nat) : List Offer :=
  match pages off with
  | Except.ok r => r
  | Except.error _ => []

/-! Concrete inputs used by witnesses and counterexamples. -/

/-- Sample offer with a given id. -/
def exOffer (i : String) : Offer := ⟨i, "t", 1, "l"⟩

/-- Sample offer returned on the first page. -/
def wOffer0 : Offer := ⟨"0", "first", 10, "l0"⟩

/-- Sample offer with the same id as `wOffer0` but different fields. -/
def wOffer0b : Offer := ⟨"0", "dup", 20, "l0b"⟩

/-- Term responses: a full first page of 50 copies of `wOffer0`, then a
short second page whose only item repeats id "0" with other fields. -/
def wPagesDup : Nat → Page := fun off =>
  if off = 0 then Except.ok (List.replicate 50 wOffer0)
  else if off = 50 then Except.ok [wOffer0b]
  else Except.error ()

/-- Term responses: a single short page. -/
def wPagesShort : Nat → Page := fun _ => Except.ok [wOffer0]

/-- Term responses: a full first page then a transport failure. -/
def wPagesErr : Nat → Page := fun off =>
  if off = 0 then Except.ok (List.replicate 50 wOffer0)
  else Except.error ()

/-- Per-term responses where the term "bad" always fails. -/
def wApiBad : String → Nat → Page := fun t _ =>
  if t = "bad" then Except.error () else Except.ok [wOffer0]

/-- Per-term responses where terms "A" and "B" both return id "0", with
different records. -/
def wApiLWW : String → Nat → Page := fun t _ =>
  if t = "A" then Except.ok [wOffer0] else Except.ok [wOffer0b]

/-- Per-term responses that always fail. -/
def wApiErr : String → Nat → Page := fun _ _ => Except.error ()

/-- Store row with id "3". -/
def wDb3 : List StoredOffer := [⟨"3", "t3", 3, "l3", 0⟩]

/-- Per-term results of all the configured terms, concatenated in
configured term order: the stream of records the merge loop processes. -/
def flatOffers (api : String → Nat → Page) (terms : List String) : List Offer :=
  (terms.map (fun q => fetch_offers (api q))).flatten

/-- Title of 900 characters, giving an offer block of 913 characters. -/
def wcTitle : String := String.mk (List.replicate 900 'b')

/-- First of two offers whose blocks do not fit into one 1600-char part. -/
def wcOffer1 : Offer := ⟨"p1", wcTitle, 1, "L1"⟩

/-- Second of two offers whose blocks do not fit into one 1600-char part. -/
def wcOffer2 : Offer := ⟨"p2", wcTitle, 2, "L2"⟩

/-- Title of 1570 characters, giving an offer block of 1583 characters. -/
def cexTitle : String := String.mk (List.replicate 1570 'a')

/-- Offer whose block fits in one message but not together with the
header line. -/
def cexOffer : Offer := ⟨"X", cexTitle, 1, "L"⟩

/-- Per-term responses of the end-to-end scenario: term "A" returns the
offer with id "1", term "B" returns offers with ids "1" and "2". -/
def scApi : String → Nat → Page := fun q _ =>
  if q = "A" then Except.ok [⟨"1", "a1", 1, "la1"⟩]
  else if q = "B" then Except.ok [⟨"1", "b1", 1, "lb1"⟩, ⟨"2", "b2", 2, "lb2"⟩]
  else Except.error ()

/-! Lemmas about the pagination loop and first-seen deduplication. -/

theorem fetchAcc_eq_foldl (pages : Nat → Page) :
    ∀ offs acc, fetchAcc pages offs acc = (processedFrom pages offs).foldl dedupStep acc := by
  intro offs
  induction offs with
  | nil => intro acc; rfl
  | cons off rest ih =>
    intro acc
    simp only [fetchAcc, processedFrom]
    cases pages off with
    | error e => rfl
    | ok results =>
      by_cases h1 : results = []
      · simp [h1]
      · by_cases h2 : results.length < 50
        · simp [h1, h2]
        · simp [h1, h2, ih, List.foldl_append]

theorem foldl_dedupStep (l : List Offer) :
    ∀ acc, l.foldl dedupStep acc =
      acc ++ dfr (l.filter (fun i => acc.all (fun p => p.1 != i.id))) := by
  induction l with
  | nil => intro acc; simp [dfr]
  | cons x xs ih =>
    intro acc
    by_cases hx : acc.any (fun p => p.1 == x.id)
    · have hcond : (acc.all (fun p => p.1 != x.id)) = false := by
        rcases List.any_eq_true.mp hx with ⟨p, hp, hpe⟩
        apply List.all_eq_false.mpr
        exact ⟨p, hp, by simp_all⟩
      simp only [List.foldl_cons, dedupStep, hx, if_true]
      rw [ih acc, List.filter_cons_of_neg (by simp [hcond])]
    · have hcond : (acc.all (fun p => p.1 != x.id)) = true := by
        apply List.all_eq_true.mpr
        intro p hp
        by_contra hne
        exact hx (List.any_eq_true.mpr ⟨p, hp, by simp_all⟩)
      simp only [List.foldl_cons, dedupStep, hx, Bool.false_eq_true, if_false]
      rw [ih (acc ++ [(x.id, x)]), List.filter_cons_of_pos (by simp [hcond]), dfr,
        List.append_assoc, List.singleton_append, List.filter_filter]
      have hfe : List.filter (fun i => (acc ++ [(x.id, x)]).all fun p => p.1 != i.id) xs
          = List.filter (fun a => a.id != x.id && acc.all fun p => p.1 != a.id) xs := by
        apply List.filter_congr
        intro a ha
        rw [Bool.eq_iff_iff]
        simp only [List.all_append, List.all_cons, List.all_nil, Bool.and_true,
          Bool.and_eq_true, bne_iff_ne, ne_eq]
        constructor
        · rintro ⟨h1, h2⟩
          exact ⟨fun he => h2 he.symm, h1⟩
        · rintro ⟨h1, h2⟩
          exact ⟨h2, fun he => h1 he.symm⟩
      rw [hfe]

theorem find?_filter_of_imp {α : Type} (p q : α → Bool) (h : ∀ a, p a = true → q a = true) :
    ∀ l : List α, (l.filter q).find? p = l.find? p := by
  intro l
  induction l with
  | nil => rfl
  | cons a l ih =>
    by_cases hq : q a = true
    · rw [List.filter_cons_of_pos hq]
      cases hp : p a
      · rw [List.find?_cons_of_neg _ (by simp [hp]), List.find?_cons_of_neg _ (by simp [hp]), ih]
      · rw [List.find?_cons_of_pos _ hp, List.find?_cons_of_pos _ hp]
    · have hp : p a = false := by
        cases hpa : p a
        · rfl
        · exact absurd (h a hpa) hq
      rw [List.filter_cons_of_neg (by simp [hq]), List.find?_cons_of_neg _ (by simp [hp]), ih]

theorem dfr_mem : ∀ (l : List Offer), ∀ p ∈ dfr l, p.1 = p.2.id ∧ p.2 ∈ l := by
  intro l
  induction l using dfr.induct with
  | case1 => intro p hp; simp [dfr] at hp
  | case2 x xs ih =>
    intro p hp
    rw [dfr] at hp
    rcases List.mem_cons.mp hp with h | h
    · subst h; exact ⟨rfl, List.mem_cons_self _ _⟩
    · rcases ih p h with ⟨h1, h2⟩
      exact ⟨h1, List.mem_cons_of_mem _ (List.mem_of_mem_filter h2)⟩

theorem dfr_first_seen : ∀ (l : List Offer), ∀ p ∈ dfr l,
    l.find? (fun y => y.id == p.1) = some p.2 := by
  intro l
  induction l using dfr.induct with
  | case1 => intro p hp; simp [dfr] at hp
  | case2 x xs ih =>
    intro p hp
    rw [dfr] at hp
    rcases List.mem_cons.mp hp with h | h
    · subst h
      exact List.find?_cons_of_pos _ (by simp)
    · have hne : p.1 ≠ x.id := by
        rcases dfr_mem _ p h with ⟨h1, h2⟩
        have := List.of_mem_filter h2
        simp only [bne_iff_ne, ne_eq, decide_eq_true_eq] at this
        rw [h1]
        simpa using this
      rw [List.find?_cons_of_neg _ (by simp [hne]; exact fun he => hne he.symm)]
      rw [← find?_filter_of_imp (fun y => y.id == p.1) (fun y => y.id != x.id)
        (by intro a ha; simp at ha ⊢; rw [ha]; exact hne) xs]
      exact ih p h

theorem dfr_keys_nodup : ∀ (l : List Offer), ((dfr l).map Prod.fst).Nodup := by
  intro l
  induction l using dfr.induct with
  | case1 => simp [dfr]
  | case2 x xs ih =>
    rw [dfr]
    simp only [List.map_cons, List.nodup_cons]
    refine ⟨?_, ih⟩
    intro hmem
    rcases List.mem_map.mp hmem with ⟨p, hp, hpe⟩
    rcases dfr_mem _ p hp with ⟨h1, h2⟩
    have := List.of_mem_filter h2
    simp only [bne_iff_ne, ne_eq, decide_eq_true_eq] at this
    exact this (by rw [← h1, hpe])

theorem fetch_offers_eq_dfr (pages : Nat → Page) :
    fetch_offers pages = (dfr (processedItems pages)).map (fun p => p.2) := by
  unfold fetch_offers processedItems
  rw [fetchAcc_eq_foldl, foldl_dedupStep]
  simp

/-- C5: within one `fetch_offers` call, each offer id is returned at most
once, and the record returned for an id is the first-seen one among the
items of the processed pages (later duplicates are discarded). -/
theorem fetch_offers_dedup_first_seen (pages : Nat → Page) :
    ((fetch_offers pages).map (fun o => o.id)).Nodup ∧
    ∀ o ∈ fetch_offers pages,
      (processedItems pages).find? (fun y => y.id == o.id) = some o := by
  constructor
  · rw [fetch_offers_eq_dfr]
    have hmm2 : ((dfr (processedItems pages)).map (fun p => p.2)).map (fun o => o.id)
        = (dfr (processedItems pages)).map Prod.fst := by
      rw [List.map_map]
      apply List.map_congr_left
      intro p hp
      exact ((dfr_mem _ p hp).1).symm
    rw [hmm2]
    exact dfr_keys_nodup _
  · intro o ho
    rw [fetch_offers_eq_dfr] at ho
    rcases List.mem_map.mp ho with ⟨p, hp, hpe⟩
    have h1 := (dfr_mem _ p hp).1
    have h2 := dfr_first_seen _ p hp
    rw [← hpe, ← h1]
    exact h2

set_option maxRecDepth 4000 in
/-- Witness for C5 at a concrete input: id "0" appears on two pages with
different fields, and the returned record is the first-seen one. -/
theorem fetch_offers_dedup_first_seen_witness :
    wOffer0 ∈ fetch_offers wPagesDup ∧
    (processedItems wPagesDup).find? (fun y => y.id == wOffer0.id) = some wOffer0 :=
  ⟨by decide, (fetch_offers_dedup_first_seen wPagesDup).2 wOffer0 (by decide)⟩

theorem requestedFrom_spec (pages : Nat → Page) :
    ∀ offs : List Nat,
      (offs ≠ [] → requestedFrom pages offs ≠ []) ∧
      requestedFrom pages offs = offs.take (requestedFrom pages offs).length ∧
      (∀ off ∈ (requestedFrom pages offs).dropLast,
        ∃ r, pages off = Except.ok r ∧ r ≠ [] ∧ 50 ≤ r.length) ∧
      (∀ l, (requestedFrom pages offs).getLast? = some l →
        (requestedFrom pages offs).length < offs.length →
        ¬ ∃ r, pages l = Except.ok r ∧ r ≠ [] ∧ 50 ≤ r.length) := by
  intro offs
  induction offs with
  | nil =>
    refine ⟨fun h => absurd rfl h, rfl, ?_, ?_⟩
    · intro off hoff
      simp [requestedFrom] at hoff
    · intro l hl
      simp [requestedFrom] at hl
  | cons off rest ih =>
    rcases ih with ⟨ih1, ih2, ih3, ih4⟩
    simp only [requestedFrom]
    cases hpage : pages off with
    | error e =>
      refine ⟨fun _ => by simp, by simp, by simp, ?_⟩
      intro l hl hlen
      simp only [List.getLast?_singleton, Option.some.injEq] at hl
      subst hl
      rintro ⟨r, hr, -, -⟩
      rw [hpage] at hr
      exact Except.noConfusion hr
    | ok results =>
      by_cases h1 : results = []
      · simp only [h1, if_true]
        refine ⟨fun _ => by simp, by simp, by simp, ?_⟩
        intro l hl hlen
        simp only [List.getLast?_singleton, Option.some.injEq] at hl
        subst hl
        rintro ⟨r, hr, hrne, -⟩
        rw [hpage] at hr
        injection hr with hre
        apply hrne
        rw [← hre]
        exact h1
      · by_cases h2 : results.length < 50
        · simp only [h1, if_false, h2, if_true]
          refine ⟨fun _ => by simp, by simp, by simp, ?_⟩
          intro l hl hlen
          simp only [List.getLast?_singleton, Option.some.injEq] at hl
          subst hl
          rintro ⟨r, hr, -, hrlen⟩
          rw [hpage] at hr
          injection hr with hre
          rw [← hre] at hrlen
          omega
        · simp only [h1, if_false, h2, if_false]
          refine ⟨fun _ => by simp, ?_, ?_, ?_⟩
          · simp only [List.length_cons, List.take_succ_cons]
            rw [← ih2]
          · intro o ho
            by_cases hreq : requestedFrom pages rest = []
            · rw [hreq] at ho
              simp at ho
            · rw [List.dropLast_cons_of_ne_nil hreq] at ho
              rcases List.mem_cons.mp ho with h | h
              · subst h
                exact ⟨results, hpage, h1, by omega⟩
              · exact ih3 o h
          · intro l hl hlen
            by_cases hreq : requestedFrom pages rest = []
            · have hrest : rest = [] := by
                by_contra hc
                exact ih1 hc hreq
              rw [hreq] at hlen
              rw [hrest] at hlen
              simp at hlen
            · rcases List.exists_cons_of_ne_nil hreq with ⟨b, t, hbt⟩
              rw [hbt, List.getLast?_cons_cons] at hl
              rw [← hbt] at hl
              apply ih4 l hl
              simp only [List.length_cons] at hlen
              omega

/-- C6: `fetch_offers` requests a non-empty prefix of the offsets
0, 50, ..., 1000 (so at most 21 page requests); every requested offset
except the last received a full page of at least 50 results, and if the
loop stopped before the 21st request, the last page it requested was
failed, empty or shorter than 50 results. -/
theorem fetch_pagination_bounds (pages : Nat → Page) :
    requestedOffsets pages ≠ [] ∧
    requestedOffsets pages = offsets.take (requestedOffsets pages).length ∧
    (requestedOffsets pages).length ≤ 21 ∧
    (∀ off ∈ (requestedOffsets pages).dropLast,
      ∃ r, pages off = Except.ok r ∧ r ≠ [] ∧ 50 ≤ r.length) ∧
    (∀ l, (requestedOffsets pages).getLast? = some l →
      (requestedOffsets pages).length < 21 →
      ¬ ∃ r, pages l = Except.ok r ∧ r ≠ [] ∧ 50 ≤ r.length) := by
  have hro : requestedOffsets pages = requestedFrom pages offsets := rfl
  rw [hro]
  rcases requestedFrom_spec pages offsets with ⟨h1, h2, h3, h4⟩
  have hlen : offsets.length = 21 := by decide
  refine ⟨h1 (by decide), h2, ?_, h3, ?_⟩
  · have hc := congrArg List.length h2
    rw [List.length_take, hlen] at hc
    omega
  · intro l hl hlt
    exact h4 l hl (by omega)

/-- Witness for C6 at a concrete input: a single short page stops the
loop after one request, and that page was indeed short. -/
theorem fetch_pagination_bounds_witness :
    requestedOffsets wPagesShort ≠ [] ∧
    (requestedOffsets wPagesShort).length ≤ 21 ∧
    ¬ ∃ r, wPagesShort 0 = Except.ok r ∧ r ≠ [] ∧ 50 ≤ r.length :=
  ⟨(fetch_pagination_bounds wPagesShort).1,
   (fetch_pagination_bounds wPagesShort).2.2.1,
   (fetch_pagination_bounds wPagesShort).2.2.2.2 0 (by decide) (by decide)⟩

/-! Lemmas about the cross-term merge. -/

theorem mergedAssoc_eq_foldl_flat (api : String → Nat → Page) :
    ∀ (terms : List String) (m : List (String × Offer)),
      terms.foldl (fun m q => (fetch_offers (api q)).foldl dictInsert m) m
        = (flatOffers api terms).foldl dictInsert m := by
  intro terms
  induction terms with
  | nil => intro m; rfl
  | cons t ts ih =>
    intro m
    simp only [flatOffers, List.map_cons, List.flatten_cons, List.foldl_append, List.foldl_cons]
    rw [ih]
    rfl

theorem dictFold_inv : ∀ l : List Offer,
    ((l.foldl dictInsert []).map Prod.fst).Nodup ∧
    ∀ p ∈ l.foldl dictInsert [],
      p.1 = p.2.id ∧ l.reverse.find? (fun y => y.id == p.1) = some p.2 := by
  intro l
  induction l using List.reverseRecOn with
  | nil => simp
  | append_singleton l x ih =>
    rcases ih with ⟨ihn, ihe⟩
    rw [List.foldl_append, List.foldl_cons, List.foldl_nil]
    have hrev : (l ++ [x]).reverse = x :: l.reverse := by simp
    by_cases hx : (l.foldl dictInsert []).any (fun p => p.1 == x.id) = true
    · simp only [dictInsert, hx, if_true]
      constructor
      · have hkeys : ((l.foldl dictInsert []).map
            (fun p => if p.1 == x.id then (x.id, x) else p)).map Prod.fst
            = (l.foldl dictInsert []).map Prod.fst := by
          rw [List.map_map]
          apply List.map_congr_left
          intro p hp
          by_cases hpk : (p.1 == x.id) = true
          · show (if p.1 == x.id then (x.id, x) else p).1 = p.1
            rw [if_pos hpk]
            exact (eq_of_beq hpk).symm
          · show (if p.1 == x.id then (x.id, x) else p).1 = p.1
            rw [if_neg hpk]
        rw [hkeys]
        exact ihn
      · intro p2 hp2
        rcases List.mem_map.mp hp2 with ⟨p, hp, hpe⟩
        rcases ihe p hp with ⟨h1, h2⟩
        rw [hrev]
        by_cases hpk : (p.1 == x.id) = true
        · have hpe2 : p2 = (x.id, x) := by
            rw [← hpe]
            exact if_pos hpk
          rw [hpe2]
          refine ⟨rfl, ?_⟩
          apply List.find?_cons_of_pos
          simp
        · have hpe2 : p2 = p := by
            rw [← hpe]
            exact if_neg hpk
          rw [hpe2]
          refine ⟨h1, ?_⟩
          rw [List.find?_cons_of_neg _ ?_]
          · exact h2
          · exact fun hbe => hpk (beq_iff_eq.mpr (eq_of_beq hbe).symm)
    · simp only [dictInsert, hx, Bool.false_eq_true, if_false]
      have hx2 : ((l.foldl dictInsert []).any (fun p => p.1 == x.id)) = false :=
        Bool.eq_false_iff.mpr hx
      rw [List.any_eq_false] at hx2
      have hnotin : x.id ∉ (l.foldl dictInsert []).map Prod.fst := by
        intro hmem
        rcases List.mem_map.mp hmem with ⟨p, hp, hpe⟩
        exact hx2 p hp (by simp [hpe])
      constructor
      · simp only [List.map_append, List.map_cons, List.map_nil]
        rw [List.nodup_append_comm]
        simp only [List.singleton_append, List.nodup_cons]
        exact ⟨hnotin, ihn⟩
      · intro p hp
        rw [hrev]
        rcases List.mem_append.mp hp with h | h
        · rcases ihe p h with ⟨h1, h2⟩
          refine ⟨h1, ?_⟩
          rw [List.find?_cons_of_neg _ ?_]
          · exact h2
          · intro hbe
            apply hnotin
            rw [eq_of_beq hbe]
            exact List.mem_map_of_mem Prod.fst h
        · rcases List.mem_singleton.mp h with rfl
          exact ⟨rfl, List.find?_cons_of_pos _ (by simp)⟩
/-- C7: when the same id is returned by more than one search term, the
merged mapping keeps the record seen last in configured term order: the
record held for each merged id is the last one with that id in the
concatenated per-term result stream. -/
theorem merge_last_write_wins (api : String → Nat → Page) (terms : List String) :
    ((mergedAssoc api terms).map Prod.fst).Nodup ∧
    ∀ o ∈ mergedOffers api terms,
      (flatOffers api terms).reverse.find? (fun y => y.id == o.id) = some o := by
  have hM : mergedAssoc api terms = (flatOffers api terms).foldl dictInsert [] :=
    mergedAssoc_eq_foldl_flat api terms []
  rcases dictFold_inv (flatOffers api terms) with ⟨hn, hinv⟩
  constructor
  · rw [hM]
    exact hn
  · intro o ho
    unfold mergedOffers at ho
    rw [hM] at ho
    rcases List.mem_map.mp ho with ⟨p, hp, hpe⟩
    rcases hinv p hp with ⟨h1, h2⟩
    rw [← hpe, ← h1]
    exact h2

/-- Witness for C7 at a concrete input: terms "A" and "B" both return
id "0"; the merged record is the one fetched for the later term "B". -/
theorem merge_last_write_wins_witness :
    ((mergedAssoc wApiLWW ["A", "B"]).map Prod.fst).Nodup ∧
    (flatOffers wApiLWW ["A", "B"]).reverse.find? (fun y => y.id == wOffer0b.id)
      = some wOffer0b :=
  ⟨(merge_last_write_wins wApiLWW ["A", "B"]).1,
   (merge_last_write_wins wApiLWW ["A", "B"]).2 wOffer0b (by decide)⟩

/-- C1: on a run with a non-empty merged offer list, `newOffers` is the
sublist of merged offers (with their fetched fields) whose id is not
stored, and `disappearedIds` is exactly the set difference of the stored
ids and the merged current ids. -/
theorem reconciler_diff (api : String → Nat → Page) (terms : List String)
    (db : List StoredOffer) (now : Nat) (h : mergedOffers api terms ≠ []) :
    (job api terms db now).newOffers
      = (mergedOffers api terms).filter
          (fun item => decide (item.id ∉ get_existing_offer_ids db)) ∧
    ∀ x, x ∈ (job api terms db now).disappearedIds ↔
      (x ∈ get_existing_offer_ids db ∧
        x ∉ (mergedOffers api terms).map (fun item => item.id)) := by
  constructor
  · simp only [job, if_neg h]
  · intro x
    simp only [job, if_neg h]
    simp [List.mem_filter]

/-- Witness for C1 at a concrete input. -/
theorem reconciler_diff_witness :
    (job wApiLWW ["A", "B"] wDb3 5).newOffers
      = (mergedOffers wApiLWW ["A", "B"]).filter
          (fun item => decide (item.id ∉ get_existing_offer_ids wDb3)) ∧
    ("3" ∈ (job wApiLWW ["A", "B"] wDb3 5).disappearedIds ↔
      ("3" ∈ get_existing_offer_ids wDb3 ∧
        "3" ∉ (mergedOffers wApiLWW ["A", "B"]).map (fun item => item.id))) :=
  ⟨(reconciler_diff wApiLWW ["A", "B"] wDb3 5 (by decide)).1,
   (reconciler_diff wApiLWW ["A", "B"] wDb3 5 (by decide)).2 "3"⟩

/-- C2: when the merged current offer list is empty the run aborts: the
store is returned unchanged, nothing is inserted or removed, and no
message body is handed to the notification transport. -/
theorem empty_guard (api : String → Nat → Page) (terms : List String)
    (db : List StoredOffer) (now : Nat) (h : mergedOffers api terms = []) :
    job api terms db now = ⟨db, [], [], []⟩ := by
  simp [job, h]

/-- Witness for C2 at a concrete input: every fetch fails, the store
holds one row, and the run leaves it untouched and sends nothing. -/
theorem empty_guard_witness :
    job wApiErr ["RTX Usado", "GTX Usado"] wDb3 5 = ⟨wDb3, [], [], []⟩ :=
  empty_guard wApiErr ["RTX Usado", "GTX Usado"] wDb3 5 (by decide)

/-! Lemmas about the store mutations performed by a run. -/

theorem addFold_mem_ids (now : Nat) : ∀ (l : List Offer) (db : List StoredOffer) (x : String),
    x ∈ (l.foldl (fun d item => add_offer_to_db d item now) db).map (fun r => r.id) ↔
      (x ∈ db.map (fun r => r.id) ∨ x ∈ l.map (fun o => o.id)) := by
  intro l
  induction l with
  | nil => simp
  | cons i il ih =>
    intro db x
    simp only [List.foldl_cons, List.map_cons, List.mem_cons]
    rw [ih]
    unfold add_offer_to_db
    by_cases hi : db.any (fun r => r.id == i.id) = true
    · rw [if_pos hi]
      have hin : i.id ∈ db.map (fun r => r.id) := by
        rcases List.any_eq_true.mp hi with ⟨r, hr, hre⟩
        exact List.mem_map.mpr ⟨r, hr, eq_of_beq hre⟩
      constructor
      · rintro (h | h)
        · exact Or.inl h
        · exact Or.inr (Or.inr h)
      · rintro (h | h | h)
        · exact Or.inl h
        · exact Or.inl (h ▸ hin)
        · exact Or.inr h
    · rw [if_neg hi]
      simp only [List.map_append, List.mem_append, List.map_cons, List.map_nil,
        List.mem_singleton]
      tauto

theorem removeFold_mem_ids : ∀ (ids : List String) (db : List StoredOffer) (x : String),
    x ∈ (ids.foldl remove_offer_from_db db).map (fun r => r.id) ↔
      (x ∈ db.map (fun r => r.id) ∧ x ∉ ids) := by
  intro ids
  induction ids with
  | nil => simp
  | cons i il ih =>
    intro db x
    simp only [List.foldl_cons, List.mem_cons]
    rw [ih]
    unfold remove_offer_from_db
    constructor
    · rintro ⟨hmem, hnot⟩
      rcases List.mem_map.mp hmem with ⟨r, hr, hre⟩
      have hrdb := (List.mem_filter.mp hr).1
      have hrne : (r.id != i) = true := (List.mem_filter.mp hr).2
      rw [bne_iff_ne] at hrne
      refine ⟨List.mem_map.mpr ⟨r, hrdb, hre⟩, ?_⟩
      rintro (h | h)
      · exact hrne (by rw [← hre] at h; exact h)
      · exact hnot h
    · rintro ⟨hmem, hnot⟩
      rcases List.mem_map.mp hmem with ⟨r, hr, hre⟩
      refine ⟨List.mem_map.mpr ⟨r, List.mem_filter.mpr ⟨hr, ?_⟩, hre⟩, fun h => hnot (Or.inr h)⟩
      rw [bne_iff_ne]
      intro he
      exact hnot (Or.inl (by rw [← hre, he]))

/-- C4: after a run with a non-empty merged offer list, the stored ids
are exactly the merged current ids (all new offers inserted, all
disappeared ids removed); in the end-to-end scenario — terms "A", "B"
with results {1} and {1, 2} and a store holding {3} — the run computes
newOffers with ids [1, 2], disappearedIds = [3], leaves the store with
ids {1, 2}, and hands the transport one message covering both offers. -/
theorem store_sync_currentIds :
    (∀ (api : String → Nat → Page) (terms : List String) (db : List StoredOffer) (now : Nat),
      mergedOffers api terms ≠ [] →
      ∀ x, x ∈ (job api terms db now).db.map (fun r => r.id) ↔
        x ∈ (mergedOffers api terms).map (fun o => o.id)) ∧
    ((job scApi ["A", "B"] wDb3 7).newOffers.map (fun o => o.id) = ["1", "2"] ∧
     (job scApi ["A", "B"] wDb3 7).disappearedIds = ["3"] ∧
     (job scApi ["A", "B"] wDb3 7).db.map (fun r => r.id) = ["1", "2"] ∧
     (job scApi ["A", "B"] wDb3 7).sent
       = [buildMessage (job scApi ["A", "B"] wDb3 7).newOffers]) := by
  constructor
  · intro api terms db now h x
    simp only [job, if_neg h]
    rw [removeFold_mem_ids, addFold_mem_ids]
    have hN : x ∈ (List.filter (fun item => decide (item.id ∉ get_existing_offer_ids db))
          (mergedOffers api terms)).map (fun o => o.id) ↔
        (x ∈ (mergedOffers api terms).map (fun o => o.id) ∧
          x ∉ db.map (fun r => r.id)) := by
      simp only [List.mem_map, List.mem_filter, decide_eq_true_eq, get_existing_offer_ids]
      constructor
      · rintro ⟨o, ⟨ho, hno⟩, rfl⟩
        exact ⟨⟨o, ho, rfl⟩, hno⟩
      · rintro ⟨⟨o, ho, rfl⟩, hno⟩
        exact ⟨o, ⟨ho, hno⟩, rfl⟩
    have hD : ∀ y, y ∈ (get_existing_offer_ids db).filter
          (fun i => decide (i ∉ (mergedOffers api terms).map (fun item => item.id))) ↔
        (y ∈ db.map (fun r => r.id) ∧
          y ∉ (mergedOffers api terms).map (fun o => o.id)) := by
      intro y
      simp [List.mem_filter, get_existing_offer_ids]
    rw [hN, hD]
    have := hD x
    tauto
  · refine ⟨by decide, by decide, by decide, by decide⟩

/-- Witness for C4: the general id-synchronisation applied to the
concrete scenario, at the stored id "3" and the fetched id "2". -/
theorem store_sync_currentIds_witness :
    ("3" ∈ (job scApi ["A", "B"] wDb3 7).db.map (fun r => r.id) ↔
      "3" ∈ (mergedOffers scApi ["A", "B"]).map (fun o => o.id)) ∧
    ("2" ∈ (job scApi ["A", "B"] wDb3 7).db.map (fun r => r.id) ↔
      "2" ∈ (mergedOffers scApi ["A", "B"]).map (fun o => o.id)) :=
  ⟨store_sync_currentIds.1 scApi ["A", "B"] wDb3 7 (by decide) "3",
   store_sync_currentIds.1 scApi ["A", "B"] wDb3 7 (by decide) "2"⟩

theorem any_id_eq_mem (db : List StoredOffer) (i : String) :
    (db.any fun r => r.id == i) = true ↔ i ∈ db.map (fun r => r.id) := by
  rw [List.any_eq_true]
  constructor
  · rintro ⟨r, hr, hbe⟩
    exact List.mem_map.mpr ⟨r, hr, eq_of_beq hbe⟩
  · intro h
    rcases List.mem_map.mp h with ⟨r, hr, hre⟩
    exact ⟨r, hr, by simp [hre]⟩

theorem add_offer_to_db_noop (db : List StoredOffer) (item : Offer) (now : Nat)
    (h : item.id ∈ db.map (fun r => r.id)) : add_offer_to_db db item now = db := by
  unfold add_offer_to_db
  rw [if_pos ((any_id_eq_mem db item.id).mpr h)]

theorem add_offer_to_db_fresh (db : List StoredOffer) (item : Offer) (now : Nat)
    (h : item.id ∉ db.map (fun r => r.id)) :
    add_offer_to_db db item now
      = db ++ [⟨item.id, item.title, item.price, item.permalink, now⟩] := by
  unfold add_offer_to_db
  rw [if_neg (fun hc => h ((any_id_eq_mem db item.id).mp hc))]

/-- C9: insert into the store is idempotent — inserting an offer whose id
is already persisted is a no-op, a second insert of the same id (with any
fields and any timestamp) leaves the store as after the first insert, and
after a first insert of a fresh id the store holds exactly one row for
that id carrying the first insert's fields and timestamp. -/
theorem insert_idempotent :
    (∀ (db : List StoredOffer) (item : Offer) (now : Nat),
      item.id ∈ db.map (fun r => r.id) → add_offer_to_db db item now = db) ∧
    (∀ (db : List StoredOffer) (item item2 : Offer) (now now2 : Nat),
      item2.id = item.id →
      add_offer_to_db (add_offer_to_db db item now) item2 now2
        = add_offer_to_db db item now) ∧
    (∀ (db : List StoredOffer) (item : Offer) (now : Nat),
      item.id ∉ db.map (fun r => r.id) →
      (add_offer_to_db db item now).filter (fun r => r.id == item.id)
        = [⟨item.id, item.title, item.price, item.permalink, now⟩]) := by
  refine ⟨add_offer_to_db_noop, ?_, ?_⟩
  · intro db item item2 now now2 he
    have hpresent : item2.id ∈ (add_offer_to_db db item now).map (fun r => r.id) := by
      by_cases hm : item.id ∈ db.map (fun r => r.id)
      · rw [add_offer_to_db_noop db item now hm, he]
        exact hm
      · rw [add_offer_to_db_fresh db item now hm]
        simp [he]
    exact add_offer_to_db_noop _ item2 now2 hpresent
  · intro db item now h
    have hany : (db.any (fun r => r.id == item.id)) = false := by
      rw [List.any_eq_false]
      intro r hr hbe
      exact h (List.mem_map.mpr ⟨r, hr, eq_of_beq hbe⟩)
    unfold add_offer_to_db
    rw [if_neg (by rw [hany]; exact Bool.false_ne_true), List.filter_append]
    have hdbnil : db.filter (fun r => r.id == item.id) = [] := by
      rw [List.filter_eq_nil_iff]
      intro r hr
      rw [List.any_eq_false] at hany
      exact fun hbe => hany r hr hbe
    rw [hdbnil]
    simp

/-! Lemmas about failure handling during fetch. -/

theorem processedFrom_full_then_err (pages : Nat → Page) :
    ∀ (fullOffs : List Nat) (errOff : Nat) (rest : List Nat),
      (∀ off ∈ fullOffs, ∃ r, pages off = Except.ok r ∧ r ≠ [] ∧ 50 ≤ r.length) →
      pages errOff = Except.error () →
      processedFrom pages (fullOffs ++ errOff :: rest)
        = (fullOffs.map (pagesOk pages)).flatten := by
  intro fullOffs
  induction fullOffs with
  | nil =>
    intro errOff rest _ herr
    simp only [List.nil_append, processedFrom, herr]
    simp
  | cons off fs ih =>
    intro errOff rest hfull herr
    rcases hfull off (List.mem_cons_self _ _) with ⟨r, hr, hrne, hrlen⟩
    simp only [List.cons_append, processedFrom, hr]
    rw [if_neg hrne, if_neg (by omega)]
    simp only [List.append_eq]
    rw [ih errOff rest (fun o ho => hfull o (List.mem_cons_of_mem _ ho)) herr]
    simp [pagesOk, hr]

theorem offsets_decomp (k : Nat) (hk : k ≤ 20) :
    offsets = (List.range k).map (fun j => 50 * j)
      ++ (50 * k) :: ((List.range (20 - k)).map (fun j => 50 * (k + 1 + j))) := by
  have h21 : 21 = k + ((20 - k) + 1) := by omega
  rw [offsets, h21, List.range_add, List.map_append]
  congr 1
  rw [List.range_succ_eq_map, List.map_cons, List.map_cons, List.map_map, List.map_map]
  congr 1
  apply List.map_congr_left
  intro a ha
  simp only [Function.comp_apply]
  omega

/-- C8: a transport/parse failure during pagination aborts that term's
loop at the failing page, returning exactly the (deduplicated) offers of
the pages processed before the failure — possibly none — and a term whose
fetch came back empty does not change what the run does with the
remaining terms. -/
theorem fetch_failure_recovery :
    (∀ (pages : Nat → Page) (k : Nat), k ≤ 20 →
      (∀ j, j < k → ∃ r, pages (50 * j) = Except.ok r ∧ r ≠ [] ∧ 50 ≤ r.length) →
      pages (50 * k) = Except.error () →
      fetch_offers pages
        = (dfr (((List.range k).map (fun j => pagesOk pages (50 * j))).flatten)).map
            (fun p => p.2)) ∧
    (∀ (api : String → Nat → Page) (terms1 terms2 : List String) (t : String)
      (db : List StoredOffer) (now : Nat),
      fetch_offers (api t) = [] →
      job api (terms1 ++ t :: terms2) db now = job api (terms1 ++ terms2) db now) := by
  constructor
  · intro pages k hk hfull herr
    rw [fetch_offers_eq_dfr]
    have hitems : processedItems pages
        = (((List.range k).map (fun j => 50 * j)).map (pagesOk pages)).flatten := by
      unfold processedItems
      rw [offsets_decomp k hk]
      apply processedFrom_full_then_err
      · intro off hoff
        rcases List.mem_map.mp hoff with ⟨j, hj, rfl⟩
        exact hfull j (List.mem_range.mp hj)
      · exact herr
    rw [hitems, List.map_map]
    rfl
  · intro api terms1 terms2 t db now h
    have hM : mergedOffers api (terms1 ++ t :: terms2)
        = mergedOffers api (terms1 ++ terms2) := by
      unfold mergedOffers mergedAssoc
      simp only [List.foldl_append, List.foldl_cons, h, List.foldl_nil]
    simp only [job, hM]

/-- Witness for C8: a full first page then a failing second page yields
exactly the first page's offers, and a run over terms "A" and "bad"
(whose fetch always fails) equals the run over just "A". -/
theorem fetch_failure_recovery_witness :
    fetch_offers wPagesErr
      = (dfr (((List.range 1).map (fun j => pagesOk wPagesErr (50 * j))).flatten)).map
          (fun p => p.2) ∧
    job wApiBad ["A", "bad"] wDb3 5 = job wApiBad ["A"] wDb3 5 :=
  ⟨fetch_failure_recovery.1 wPagesErr 1 (by omega)
      (fun j hj => by
        have hj0 : j = 0 := by omega
        subst hj0
        exact ⟨List.replicate 50 wOffer0, rfl, by decide, by decide⟩)
      rfl,
   fetch_failure_recovery.2 wApiBad ["A"] [] "bad" wDb3 5 (by decide)⟩

/-- Witness for C9 at concrete inputs: inserting id "3" into a store that
has it is a no-op; a second insert of id "0" with different fields and a
different timestamp changes nothing; after the first insert the store
holds exactly the first row for id "0". -/
theorem insert_idempotent_witness :
    add_offer_to_db wDb3 (exOffer "3") 9 = wDb3 ∧
    add_offer_to_db (add_offer_to_db wDb3 wOffer0 9) wOffer0b 11
      = add_offer_to_db wDb3 wOffer0 9 ∧
    (add_offer_to_db wDb3 wOffer0 9).filter (fun r => r.id == wOffer0.id)
      = [⟨wOffer0.id, wOffer0.title, wOffer0.price, wOffer0.permalink, 9⟩] :=
  ⟨insert_idempotent.1 wDb3 (exOffer "3") 9 (by decide),
   insert_idempotent.2.1 wDb3 wOffer0 wOffer0b 9 11 (by decide),
   insert_idempotent.2.2 wDb3 wOffer0 9 (by decide)⟩

/-! Lemmas about the greedy message packing of the notifier. -/

theorem strJoin_nil : strJoin [] = "" := rfl

theorem strJoin_cons (x : String) (l : List String) : strJoin (x :: l) = x ++ strJoin l := rfl

theorem string_eq_empty_of_length (s : String) (h : s.length = 0) : s = "" := by
  rcases s with ⟨data⟩
  apply String.ext
  simp only [String.length] at h
  simpa using List.length_eq_zero.mp h

theorem string_length_pos (s : String) (h : s ≠ "") : 0 < s.length := by
  rcases Nat.eq_zero_or_pos s.length with h0 | h0
  · exact absurd (string_eq_empty_of_length s h0) h
  · exact h0

theorem append_ne_empty (a b : String) (h : a ≠ "") : a ++ b ≠ "" := by
  intro he
  have hlen := congrArg String.length he
  rw [String.length_append] at hlen
  have ha := string_length_pos a h
  have h0 : ("" : String).length = 0 := rfl
  omega

theorem strJoin_length : ∀ l : List String, (strJoin l).length = sumLen l := by
  intro l
  induction l with
  | nil => rfl
  | cons x xs ih =>
    rw [strJoin_cons, String.length_append, ih]
    simp [sumLen]

theorem offerBlock_ne_empty (item : Offer) : offerBlock item ≠ "" := by
  intro he
  have hlen := congrArg String.length he
  unfold offerBlock at hlen
  rw [String.length_append, String.length_append, String.length_append,
    String.length_append, String.length_append, String.length_append] at hlen
  have h2 : ("- " : String).length = 2 := rfl
  have h0 : ("" : String).length = 0 := rfl
  omega

theorem buildMessage_eq : ∀ (l : List Offer) (s : String),
    l.foldl (fun acc item => acc ++ offerBlock item) s = s ++ strJoin (l.map offerBlock) := by
  intro l
  induction l with
  | nil =>
    intro s
    simp [strJoin_nil, String.append_empty]
  | cons o os ih =>
    intro s
    rw [List.foldl_cons, ih, List.map_cons, strJoin_cons, String.append_assoc]

theorem pack_structure (limit : Nat) : ∀ (bs : List String) (cur : String),
    cur ≠ "" → (∀ b ∈ bs, b ≠ "") →
    ∃ (c0 : List String) (css : List (List String)),
      pack limit cur bs = (cur ++ strJoin c0) :: css.map strJoin ∧
      c0 ++ css.flatten = bs ∧
      ∀ cs ∈ css, cs ≠ [] := by
  intro bs
  induction bs with
  | nil =>
    intro cur hcur _
    refine ⟨[], [], ?_, rfl, by simp⟩
    simp [pack, hcur, strJoin_nil, String.append_empty]
  | cons b bs ih =>
    intro cur hcur hbs
    have hb : b ≠ "" := hbs b (List.mem_cons_self _ _)
    have hbs2 : ∀ x ∈ bs, x ≠ "" := fun x hx => hbs x (List.mem_cons_of_mem _ hx)
    by_cases hcond : limit < cur.length + b.length
    · rcases ih b hb hbs2 with ⟨c0, css, h1, h2, h3⟩
      refine ⟨[], (b :: c0) :: css, ?_, ?_, ?_⟩
      · simp only [pack, if_pos hcond]
        rw [h1]
        simp [strJoin_cons, strJoin_nil, String.append_empty]
      · simp only [List.nil_append, List.flatten_cons, List.cons_append]
        rw [h2]
      · intro cs hcs
        rcases List.mem_cons.mp hcs with rfl | h
        · exact List.cons_ne_nil _ _
        · exact h3 cs h
    · rcases ih (cur ++ b) (append_ne_empty cur b hcur) hbs2 with ⟨c0, css, h1, h2, h3⟩
      refine ⟨b :: c0, css, ?_, by simp [h2], h3⟩
      simp only [pack, if_neg hcond]
      rw [h1, strJoin_cons, String.append_assoc]

theorem pack_parts_le (limit : Nat) : ∀ (bs : List String) (cur : String),
    cur.length ≤ limit → (∀ b ∈ bs, b.length ≤ limit) →
    ∀ p ∈ pack limit cur bs, p.length ≤ limit := by
  intro bs
  induction bs with
  | nil =>
    intro cur hcur _ p hp
    simp only [pack] at hp
    by_cases hc : cur = ""
    · rw [if_pos hc] at hp
      simp at hp
    · rw [if_neg hc] at hp
      rcases List.mem_singleton.mp hp with rfl
      exact hcur
  | cons b bs ih =>
    intro cur hcur hbs p hp
    have hb : b.length ≤ limit := hbs b (List.mem_cons_self _ _)
    have hbs2 : ∀ x ∈ bs, x.length ≤ limit := fun x hx => hbs x (List.mem_cons_of_mem _ hx)
    simp only [pack] at hp
    by_cases hcond : limit < cur.length + b.length
    · rw [if_pos hcond] at hp
      rcases List.mem_cons.mp hp with rfl | h
      · exact hcur
      · exact ih b hb hbs2 p h
    · rw [if_neg hcond] at hp
      refine ih (cur ++ b) ?_ hbs2 p hp
      rw [String.length_append]
      omega

theorem flatten_cons_decomp {α : Type} : ∀ (css : List (List α)) (x : α) (rest : List α),
    css.flatten = x :: rest →
    ∃ pre c cpost, css = pre ++ (x :: c) :: cpost ∧ (∀ e ∈ pre, e = []) ∧
      c ++ cpost.flatten = rest := by
  intro css
  induction css with
  | nil =>
    intro x rest h
    exact absurd h (by simp)
  | cons c0 cs ih =>
    intro x rest h
    cases c0 with
    | nil =>
      rw [List.flatten_cons, List.nil_append] at h
      rcases ih x rest h with ⟨pre, c, cpost, h1, h2, h3⟩
      refine ⟨[] :: pre, c, cpost, by rw [h1]; rfl, ?_, h3⟩
      intro e he
      rcases List.mem_cons.mp he with rfl | he2
      · rfl
      · exact h2 e he2
    | cons y c0t =>
      rw [List.flatten_cons, List.cons_append] at h
      injection h with hy hrest
      subst hy
      exact ⟨[], c0t, cs, rfl, by simp, hrest⟩

theorem flatten_eq_nil_of_all_nil {α : Type} : ∀ (l : List (List α)),
    (∀ e ∈ l, e = []) → l.flatten = [] := by
  intro l h
  induction l with
  | nil => rfl
  | cons a t ih =>
    rw [List.flatten_cons, h a (List.mem_cons_self _ _), List.nil_append]
    exact ih (fun e he => h e (List.mem_cons_of_mem _ he))

theorem mem_flatten_le (limit : Nat) (css : List (List String)) (x : String)
    (hv : ∀ cs ∈ css, sumLen cs ≤ limit) (hx : x ∈ css.flatten) : x.length ≤ limit := by
  rcases List.mem_flatten.mp hx with ⟨cs, hcs, hxcs⟩
  have hcsv := hv cs hcs
  have hle : x.length ≤ sumLen cs := by
    unfold sumLen
    exact List.single_le_sum (by simp) _ (List.mem_map_of_mem String.length hxcs)
  omega

theorem pack_min (limit : Nat) : ∀ (bs : List String) (cur : String) (css : List (List String)),
    css.flatten = cur :: bs →
    (∀ cs ∈ css, sumLen cs ≤ limit) →
    (pack limit cur bs).length ≤ css.length := by
  intro bs
  induction bs with
  | nil =>
    intro cur css hj hv
    by_cases hcur : cur = ""
    · simp only [pack, if_pos hcur]
      simp
    · simp only [pack, if_neg hcur]
      have hne : css ≠ [] := by
        intro h
        rw [h] at hj
        simp at hj
      simpa using List.length_pos.mpr hne
  | cons b bs ih =>
    intro cur css hj hv
    rcases flatten_cons_decomp css cur (b :: bs) hj with ⟨pre, c, cpost, hdecomp, hpre, hrest⟩
    have hvpost : ∀ cs ∈ cpost, sumLen cs ≤ limit := by
      intro cs hcs
      apply hv
      rw [hdecomp]
      exact List.mem_append_right _ (List.mem_cons_of_mem _ hcs)
    by_cases hcond : limit < cur.length + b.length
    · simp only [pack, if_pos hcond]
      have hcnil : c = [] := by
        cases c with
        | nil => rfl
        | cons cb ct =>
          exfalso
          rw [List.cons_append] at hrest
          injection hrest with hcb hct
          subst hcb
          have hgrp : sumLen (cur :: cb :: ct) ≤ limit := by
            apply hv
            rw [hdecomp]
            exact List.mem_append_right _ (List.mem_cons_self _ _)
          have hsum : cur.length + cb.length ≤ sumLen (cur :: cb :: ct) := by
            simp only [sumLen, List.map_cons, List.sum_cons]
            omega
          omega
      subst hcnil
      rw [List.nil_append] at hrest
      have hih := ih b cpost hrest hvpost
      rw [hdecomp]
      simp only [List.length_cons, List.length_append] at hih ⊢
      omega
    · simp only [pack, if_neg hcond]
      cases c with
      | cons cb ct =>
        rw [List.cons_append] at hrest
        injection hrest with hcb hct
        subst hcb
        have hj2 : (pre ++ ((cur ++ cb) :: ct) :: cpost).flatten = (cur ++ cb) :: bs := by
          rw [List.flatten_append, flatten_eq_nil_of_all_nil pre hpre, List.nil_append,
            List.flatten_cons, List.cons_append, hct]
        have hv2 : ∀ cs ∈ pre ++ ((cur ++ cb) :: ct) :: cpost, sumLen cs ≤ limit := by
          intro cs hcs
          rcases List.mem_append.mp hcs with h | h
          · rw [hpre cs h]
            simp [sumLen]
          · rcases List.mem_cons.mp h with rfl | h2
            · have hgrp : sumLen (cur :: cb :: ct) ≤ limit := by
                apply hv
                rw [hdecomp]
                exact List.mem_append_right _ (List.mem_cons_self _ _)
              simp only [sumLen, List.map_cons, List.sum_cons, String.length_append] at hgrp ⊢
              omega
            · apply hv
              rw [hdecomp]
              exact List.mem_append_right _ (List.mem_cons_of_mem _ h2)
        have hih := ih (cur ++ cb) (pre ++ ((cur ++ cb) :: ct) :: cpost) hj2 hv2
        rw [hdecomp]
        simp only [List.length_append, List.length_cons] at hih ⊢
        omega
      | nil =>
        rw [List.nil_append] at hrest
        rcases flatten_cons_decomp cpost b bs hrest with ⟨pre2, c2, cpost2, hd2, hp2, hr2⟩
        have hj2 : (pre ++ [cur ++ b] :: (pre2 ++ c2 :: cpost2)).flatten
            = (cur ++ b) :: bs := by
          rw [List.flatten_append, flatten_eq_nil_of_all_nil pre hpre, List.nil_append,
            List.flatten_cons, List.flatten_append, flatten_eq_nil_of_all_nil pre2 hp2,
            List.nil_append, List.flatten_cons, List.singleton_append, hr2]
        have hv2 : ∀ cs ∈ pre ++ [cur ++ b] :: (pre2 ++ c2 :: cpost2), sumLen cs ≤ limit := by
          intro cs hcs
          rcases List.mem_append.mp hcs with h | h
          · rw [hpre cs h]
            simp [sumLen]
          · rcases List.mem_cons.mp h with rfl | h2
            · simp only [sumLen, List.map_cons, List.map_nil, List.sum_cons, List.sum_nil,
                String.length_append]
              omega
            · rcases List.mem_append.mp h2 with h3 | h3
              · rw [hp2 cs h3]
                simp [sumLen]
              · rcases List.mem_cons.mp h3 with rfl | h4
                · have hgrp : sumLen (b :: cs) ≤ limit := by
                    apply hvpost
                    rw [hd2]
                    exact List.mem_append_right _ (List.mem_cons_self _ _)
                  simp only [sumLen, List.map_cons, List.sum_cons] at hgrp
                  simp only [sumLen]
                  omega
                · apply hvpost
                  rw [hd2]
                  exact List.mem_append_right _ (List.mem_cons_of_mem _ h4)
        have hih := ih (cur ++ b) (pre ++ [cur ++ b] :: (pre2 ++ c2 :: cpost2)) hj2 hv2
        rw [hdecomp, hd2]
        simp only [List.length_append, List.length_cons] at hih ⊢
        omega

theorem send_notification_eq_pack (new_offers : List Offer) (hne : new_offers ≠ [])
    (hbig : 1600 < (buildMessage new_offers).length) :
    send_notification new_offers
      = pack 1600 NOTIF_HEADER (new_offers.map offerBlock) := by
  simp only [send_notification, MSG_LIMIT]
  rw [if_neg hne, if_neg (by omega)]

/-- C3: when the full message exceeds 1600 characters and no single offer
block does, the fallback packing yields parts that all fit in 1600
characters, are concatenations of whole offer blocks in order with the
header only at the front of the first part, and number no more than any
packing of the header and blocks into in-order parts of at most 1600
characters. -/
theorem notify_packing_minimal (new_offers : List Offer)
    (hne : new_offers ≠ [])
    (hblocks : ∀ o ∈ new_offers, (offerBlock o).length ≤ 1600)
    (hbig : 1600 < (buildMessage new_offers).length) :
    (∀ p ∈ send_notification new_offers, p.length ≤ 1600) ∧
    (∃ (c0 : List String) (css : List (List String)),
      send_notification new_offers
        = (NOTIF_HEADER ++ strJoin c0) :: css.map strJoin ∧
      c0 ++ css.flatten = new_offers.map offerBlock ∧
      ∀ cs ∈ css, cs ≠ []) ∧
    (∀ css : List (List String),
      css.flatten = NOTIF_HEADER :: new_offers.map offerBlock →
      (∀ cs ∈ css, (strJoin cs).length ≤ 1600) →
      (send_notification new_offers).length ≤ css.length) := by
  have hsend := send_notification_eq_pack new_offers hne hbig
  refine ⟨?_, ?_, ?_⟩
  · intro p hp
    rw [hsend] at hp
    refine pack_parts_le 1600 _ NOTIF_HEADER (by decide) ?_ p hp
    intro x hx
    rcases List.mem_map.mp hx with ⟨o, ho, rfl⟩
    exact hblocks o ho
  · rw [hsend]
    exact pack_structure 1600 _ NOTIF_HEADER (by decide)
      (fun x hx => by
        rcases List.mem_map.mp hx with ⟨o, ho, rfl⟩
        exact offerBlock_ne_empty o)
  · intro css hj hv
    rw [hsend]
    apply pack_min 1600 _ NOTIF_HEADER css hj
    intro cs hcs
    rw [← strJoin_length]
    exact hv cs hcs

theorem NOTIF_HEADER_length : NOTIF_HEADER.length = 26 := rfl

theorem offerBlock_length (item : Offer) :
    (offerBlock item).length
      = 11 + item.title.length + (toString item.price).length
        + item.permalink.length := by
  unfold offerBlock
  rw [String.length_append, String.length_append, String.length_append,
    String.length_append, String.length_append, String.length_append]
  have h1 : ("- " : String).length = 2 := rfl
  have h2 : (" for $" : String).length = 6 := rfl
  have h3 : ("\n" : String).length = 1 := rfl
  have h4 : ("\n\n" : String).length = 2 := rfl
  omega

theorem buildMessage_length (l : List Offer) :
    (buildMessage l).length = NOTIF_HEADER.length + sumLen (l.map offerBlock) := by
  unfold buildMessage
  rw [buildMessage_eq, String.length_append, strJoin_length]

theorem wcTitle_length : wcTitle.length = 900 := by
  have h : wcTitle.length = (List.replicate 900 'b').length := rfl
  rw [h, List.length_replicate]

theorem cexTitle_length : cexTitle.length = 1570 := by
  have h : cexTitle.length = (List.replicate 1570 'a').length := rfl
  rw [h, List.length_replicate]

theorem wcBlock1_length : (offerBlock wcOffer1).length = 914 := by
  rw [offerBlock_length]
  have ht : wcOffer1.title.length = 900 := wcTitle_length
  have hp : (toString wcOffer1.price).length = 1 := rfl
  have hl : wcOffer1.permalink.length = 2 := rfl
  omega

theorem wcBlock2_length : (offerBlock wcOffer2).length = 914 := by
  rw [offerBlock_length]
  have ht : wcOffer2.title.length = 900 := wcTitle_length
  have hp : (toString wcOffer2.price).length = 1 := rfl
  have hl : wcOffer2.permalink.length = 2 := rfl
  omega

theorem cexBlock_length : (offerBlock cexOffer).length = 1583 := by
  rw [offerBlock_length]
  have ht : cexOffer.title.length = 1570 := cexTitle_length
  have hp : (toString cexOffer.price).length = 1 := rfl
  have hl : cexOffer.permalink.length = 1 := rfl
  omega

theorem wc_buildMessage_length : (buildMessage [wcOffer1, wcOffer2]).length = 1854 := by
  rw [buildMessage_length, NOTIF_HEADER_length]
  simp only [List.map_cons, List.map_nil, sumLen, List.sum_cons, List.sum_nil]
  rw [wcBlock1_length, wcBlock2_length]
  omega

theorem cex_buildMessage_length : (buildMessage [cexOffer]).length = 1609 := by
  rw [buildMessage_length, NOTIF_HEADER_length]
  simp only [List.map_cons, List.map_nil, sumLen, List.sum_cons, List.sum_nil]
  rw [cexBlock_length]
  omega

/-- Witness for C3 at a concrete input: two 914-character blocks force the
fallback, and the greedy result has no more parts than the hand-made
packing with the first block beside the header and the second alone. -/
theorem notify_packing_minimal_witness :
    (send_notification [wcOffer1, wcOffer2]).length
      ≤ ([[NOTIF_HEADER, offerBlock wcOffer1], [offerBlock wcOffer2]]
          : List (List String)).length := by
  have hblocks : ∀ o ∈ [wcOffer1, wcOffer2], (offerBlock o).length ≤ 1600 := by
    intro o ho
    rcases List.mem_cons.mp ho with rfl | ho2
    · rw [wcBlock1_length]
      omega
    · rcases List.mem_singleton.mp ho2 with rfl
      rw [wcBlock2_length]
      omega
  have hbig : 1600 < (buildMessage [wcOffer1, wcOffer2]).length := by
    rw [wc_buildMessage_length]
    omega
  apply (notify_packing_minimal [wcOffer1, wcOffer2] (by decide) hblocks hbig).2.2
  · rfl
  · intro cs hcs
    rcases List.mem_cons.mp hcs with rfl | h2
    · rw [strJoin_length]
      simp only [sumLen, List.map_cons, List.map_nil, List.sum_cons, List.sum_nil]
      rw [NOTIF_HEADER_length, wcBlock1_length]
      omega
    · rcases List.mem_singleton.mp h2 with rfl
      rw [strJoin_length]
      simp only [sumLen, List.map_cons, List.map_nil, List.sum_cons, List.sum_nil]
      rw [wcBlock2_length]
      omega

/-- Counterexample to C10 as stated: a single offer whose block has 1583
characters (within the 1600 limit) makes header plus block exceed 1600,
and the fallback then seals the header line alone as the first message
part, a part with zero offer blocks. -/
theorem notify_header_alone_cex :
    (offerBlock cexOffer).length ≤ 1600 ∧
    1600 < (buildMessage [cexOffer]).length ∧
    send_notification [cexOffer] = [NOTIF_HEADER, offerBlock cexOffer] := by
  refine ⟨by rw [cexBlock_length]; omega, by rw [cex_buildMessage_length]; omega, ?_⟩
  rw [send_notification_eq_pack [cexOffer] (by decide)
    (by rw [cex_buildMessage_length]; omega)]
  have hm : [cexOffer].map offerBlock = [offerBlock cexOffer] := rfl
  rw [hm, pack]
  rw [if_pos (by rw [NOTIF_HEADER_length, cexBlock_length]; omega)]
  rw [pack, if_neg (offerBlock_ne_empty cexOffer)]

/-- C10 (amended): in the fallback packing, every message part after the
first is the concatenation of at least one complete offer block; the
first part starts with the header line and may carry zero offer blocks. -/
theorem notify_tail_parts_have_blocks (new_offers : List Offer)
    (hne : new_offers ≠ [])
    (hbig : 1600 < (buildMessage new_offers).length) :
    ∃ (c0 : List String) (css : List (List String)),
      send_notification new_offers
        = (NOTIF_HEADER ++ strJoin c0) :: css.map strJoin ∧
      c0 ++ css.flatten = new_offers.map offerBlock ∧
      ∀ cs ∈ css, cs ≠ [] := by
  rw [send_notification_eq_pack new_offers hne hbig]
  exact pack_structure 1600 _ NOTIF_HEADER (by decide)
    (fun x hx => by
      rcases List.mem_map.mp hx with ⟨o, ho, rfl⟩
      exact offerBlock_ne_empty o)

/-- Witness for the amended C10 at the counterexample input. -/
theorem notify_tail_parts_have_blocks_witness :
    ∃ (c0 : List String) (css : List (List String)),
      send_notification [cexOffer]
        = (NOTIF_HEADER ++ strJoin c0) :: css.map strJoin ∧
      c0 ++ css.flatten = [cexOffer].map offerBlock ∧
      ∀ cs ∈ css, cs ≠ [] :=
  notify_tail_parts_have_blocks [cexOffer] (by decide)
    (by rw [cex_buildMessage_length]; omega)

end MLScrape
